import Mathlib

/-!
Verification of the FameForecast-TextView core against its specification.

The Python source is shallowly embedded: each relevant class or function of
`twitch_chat_monitor` is translated into an executable Lean definition
(clock readings become explicit `ℚ` arguments, queues become lists, and the
mutable object state becomes explicit state passing), and the specified
properties are proved as theorems about those definitions.
-/

namespace FameForecast

/-! ## Rate limiter (`TwitchLimiter` in `twitch_chat_monitor/irc.py`)

`allow()` is translated as a pure state transformer `TwitchLimiter.allow`
taking the current clock reading `now` (the source's `time.time()`) as an
argument.  The `deque` of past-send timestamps becomes a list with the
oldest element first; `popleft` on the eviction loop becomes `dropWhile`
on the front.  The public-build defaults are `limit = 20`, `window = 30`,
`min_delay = 1.6` and the constructor starts with no events,
`last_message = 0` and all-zero metrics. -/

structure LimiterMetrics where
  total_attempts : ℕ
  allowed_messages : ℕ
  rate_limited : ℕ
  min_delay_blocked : ℕ
  avg_delay : ℚ
deriving Repr, DecidableEq

structure TwitchLimiter where
  limit : ℕ
  window : ℚ
  min_delay : ℚ
  events : List ℚ
  last_message : ℚ
  metrics : LimiterMetrics
deriving Repr, DecidableEq

/-- Differences between consecutive timestamps, used by the source to
compute the rolling `avg_delay` metric. -/
def consecDiffs : List ℚ → List ℚ
  | a :: b :: rest => (b - a) :: consecDiffs (b :: rest)
  | _ => []

/-- `TwitchLimiter.allow`, translated line by line from the source:
bump `total_attempts`; reject when `now - last_message < min_delay`
(bumping `min_delay_blocked`); otherwise evict timestamps older than
`window` from the front; accept iff fewer than `limit` remain, in which
case the timestamp is appended, `last_message` is updated and the metrics
are refreshed, else bump `rate_limited` and reject. -/
def TwitchLimiter.allow (s : TwitchLimiter) (now : ℚ) : TwitchLimiter × Bool :=
  let s₁ := { s with metrics.total_attempts := s.metrics.total_attempts + 1 }
  if now - s₁.last_message < s₁.min_delay then
    ({ s₁ with metrics.min_delay_blocked := s₁.metrics.min_delay_blocked + 1 }, false)
  else
    let evs := s₁.events.dropWhile (fun t => decide (s₁.window < now - t))
    if evs.length < s₁.limit then
      let evs' := evs ++ [now]
      let avg := if 1 < evs'.length then
          (consecDiffs evs').sum / ((consecDiffs evs').length : ℚ)
        else s₁.metrics.avg_delay
      ({ s₁ with
          events := evs'
          last_message := now
          metrics := { s₁.metrics with
            allowed_messages := s₁.metrics.allowed_messages + 1
            avg_delay := avg } }, true)
    else
      ({ s₁ with
          events := evs
          metrics.rate_limited := s₁.metrics.rate_limited + 1 }, false)

/-- Run a sequence of `allow()` calls at the given clock readings,
returning the final limiter state and the trace of `(time, result)`. -/
def runAllow (s : TwitchLimiter) : List ℚ → TwitchLimiter × List (ℚ × Bool)
  | [] => (s, [])
  | t :: ts =>
    let r := s.allow t
    let rest := runAllow r.1 ts
    (rest.1, (t, r.2) :: rest.2)

/-- The times at which `allow()` returned `True`. -/
def successes (trace : List (ℚ × Bool)) : List ℚ :=
  (trace.filter (·.2)).map (·.1)

/-- The limiter as constructed in the public build:
`TwitchLimiter(limit=20, window=30, min_delay=1.6)`. -/
def initLimiter : TwitchLimiter :=
  { limit := 20, window := 30, min_delay := 8/5, events := [], last_message := 0,
    metrics := { total_attempts := 0, allowed_messages := 0, rate_limited := 0,
                 min_delay_blocked := 0, avg_delay := 0 } }

end FameForecast

namespace FameForecast

/-! ### Rate-limiter invariant -/

/-- Helper: filtering with a pointwise weaker predicate keeps at least as
many elements. -/
theorem length_filter_mono (p q : ℚ → Bool) :
    ∀ l : List ℚ, (∀ a ∈ l, p a = true → q a = true) →
      (l.filter p).length ≤ (l.filter q).length := by
  intro l
  induction l with
  | nil => intro _; simp
  | cons a t ih =>
    intro h
    have ht := ih fun x hx => h x (by simp [hx])
    by_cases hp : p a = true
    · have hq := h a (by simp) hp
      simp [List.filter_cons, hp, hq]
      omega
    · rw [List.filter_cons, if_neg (by simpa using hp)]
      rw [List.filter_cons]
      by_cases hq : q a = true
      · rw [if_pos (by simpa using hq)]
        simp
        omega
      · rw [if_neg (by simpa using hq)]
        exact ht

/-- Invariant tying a limiter state (with parameters `L`, `W`, `D`) to the
list `succs` of past success times, `tmax` being the largest clock reading
seen so far: the recorded events are exactly the not-yet-evicted successes
(evicted ones are older than the window), `last_message` is the last
success time, successes are spaced by at least `D`, and every trailing
window of length `W` holds at most `L` successes. -/
structure LimInv (L : ℕ) (W D : ℚ) (s : TwitchLimiter) (succs : List ℚ)
    (tmax : ℚ) : Prop where
  hL : s.limit = L
  hW : s.window = W
  hD : s.min_delay = D
  split : ∃ dropped, succs = dropped ++ s.events ∧ ∀ x ∈ dropped, W < tmax - x
  le_tmax : ∀ x ∈ succs, x ≤ tmax
  last_eq : s.last_message = succs.getLastD 0
  gap : succs.Chain' (fun a b => D ≤ b - a)
  windowBound : ∀ T : ℚ,
    ((succs.filter fun x => decide (T - W ≤ x) && decide (x ≤ T)).length) ≤ L

/-- Characterization of `allow` when the min-delay gate rejects. -/
theorem allow_eq_min_delay {s : TwitchLimiter} {now : ℚ}
    (h : now - s.last_message < s.min_delay) :
    s.allow now = ({ s with metrics := { s.metrics with
        total_attempts := s.metrics.total_attempts + 1
        min_delay_blocked := s.metrics.min_delay_blocked + 1 } }, false) := by
  simp only [TwitchLimiter.allow]
  rw [if_pos h]

/-- Characterization of `allow` when the call is accepted. -/
theorem allow_eq_accept {s : TwitchLimiter} {now : ℚ}
    (h1 : ¬ (now - s.last_message < s.min_delay))
    (h2 : (s.events.dropWhile fun t => decide (s.window < now - t)).length < s.limit) :
    s.allow now = ({ s with
        events := (s.events.dropWhile fun t => decide (s.window < now - t)) ++ [now]
        last_message := now
        metrics := { s.metrics with
          total_attempts := s.metrics.total_attempts + 1
          allowed_messages := s.metrics.allowed_messages + 1
          avg_delay :=
            if 1 < ((s.events.dropWhile fun t => decide (s.window < now - t)) ++ [now]).length then
              (consecDiffs ((s.events.dropWhile fun t => decide (s.window < now - t)) ++ [now])).sum /
                ((consecDiffs ((s.events.dropWhile fun t => decide (s.window < now - t)) ++ [now])).length : ℚ)
            else s.metrics.avg_delay } }, true) := by
  simp only [TwitchLimiter.allow]
  rw [if_neg h1, if_pos h2]

/-- Characterization of `allow` when the window cap rejects. -/
theorem allow_eq_window_reject {s : TwitchLimiter} {now : ℚ}
    (h1 : ¬ (now - s.last_message < s.min_delay))
    (h2 : ¬ ((s.events.dropWhile fun t => decide (s.window < now - t)).length < s.limit)) :
    s.allow now = ({ s with
        events := s.events.dropWhile fun t => decide (s.window < now - t)
        metrics := { s.metrics with
          total_attempts := s.metrics.total_attempts + 1
          rate_limited := s.metrics.rate_limited + 1 } }, false) := by
  simp only [TwitchLimiter.allow]
  rw [if_neg h1, if_neg h2]

/-- One `allow()` call preserves the invariant, the success list growing by
`now` exactly when the call is accepted. -/
theorem allow_inv {L : ℕ} {W D : ℚ} {s : TwitchLimiter} {succs : List ℚ}
    {tmax now : ℚ} (hInv : LimInv L W D s succs tmax) (hmono : tmax ≤ now) :
    LimInv L W D (s.allow now).1
      (if (s.allow now).2 then succs ++ [now] else succs) now := by
  obtain ⟨hL, hW, hD, ⟨dropped, hsplit, hdrop⟩, hle, hlast, hgap, hwin⟩ := hInv
  by_cases hmd : now - s.last_message < s.min_delay
  · -- min-delay rejection: state unchanged apart from metrics
    rw [allow_eq_min_delay hmd]
    refine ⟨hL, hW, hD, ⟨dropped, hsplit, ?_⟩, ?_, hlast, hgap, hwin⟩
    · intro x hx
      have := hdrop x hx
      linarith
    · intro x hx
      have := hle x hx
      linarith
  · -- past the min-delay gate: the eviction runs
    have hsplitEvents :
        s.events = (s.events.takeWhile fun t => decide (s.window < now - t)) ++
          (s.events.dropWhile fun t => decide (s.window < now - t)) :=
      (List.takeWhile_append_dropWhile ..).symm
    have hdropped' :
        ∀ x ∈ dropped ++ (s.events.takeWhile fun t => decide (s.window < now - t)),
          W < now - x := by
      intro x hx
      rcases List.mem_append.mp hx with h | h
      · have := hdrop x h
        linarith
      · have := List.mem_takeWhile_imp h
        simp at this
        rw [hW] at this
        linarith
    have hsucc_split :
        succs = (dropped ++ (s.events.takeWhile fun t => decide (s.window < now - t))) ++
          (s.events.dropWhile fun t => decide (s.window < now - t)) := by
      rw [List.append_assoc, ← hsplitEvents]
      exact hsplit
    by_cases hcap : (s.events.dropWhile fun t => decide (s.window < now - t)).length < s.limit
    · -- accepted
      rw [allow_eq_accept hmd hcap]
      have hgapnow : s.min_delay ≤ now - s.last_message := not_lt.mp hmd
      simp only [if_pos]
      refine ⟨hL, hW, hD, ?_, ?_, ?_, ?_, ?_⟩
      · refine ⟨dropped ++ (s.events.takeWhile fun t => decide (s.window < now - t)), ?_, hdropped'⟩
        simp only []
        rw [hsucc_split, List.append_assoc]
      · intro x hx
        rcases List.mem_append.mp hx with h | h
        · have := hle x h
          linarith
        · simp at h
          exact le_of_eq h
      · simp only []
        exact (List.getLastD_concat 0 now succs).symm
      · rw [List.chain'_append]
        refine ⟨hgap, List.chain'_singleton now, ?_⟩
        intro x hx y hy
        simp at hy
        subst hy
        have hgl : succs.getLastD 0 = x := by
          rw [List.getLastD_eq_getLast?, Option.mem_def.mp hx]
          rfl
        have hlast' : s.last_message = x := hlast.trans hgl
        rw [← hD, ← hlast']
        exact hgapnow
      · intro T
        rcases le_or_lt now T with hT | hT
        · -- the window ends at or after `now`: compare with the recency filter
          have hsub : ((succs ++ [now]).filter
                fun x => decide (T - W ≤ x) && decide (x ≤ T)).length ≤
              ((succs ++ [now]).filter fun x => decide (now - x ≤ W)).length := by
            apply length_filter_mono
            intro a _ ha
            simp at ha ⊢
            linarith [ha.1, ha.2]
          have hrec : ((succs ++ [now]).filter
                fun x => decide (now - x ≤ W)).length ≤
              (s.events.dropWhile fun t => decide (s.window < now - t)).length + 1 := by
            rw [hsucc_split, List.append_assoc, List.filter_append]
            have hzero : ((dropped ++ (s.events.takeWhile fun t => decide (s.window < now - t))).filter
                fun x => decide (now - x ≤ W)) = [] := by
              rw [List.filter_eq_nil_iff]
              intro a ha
              have := hdropped' a ha
              simp
              linarith
            rw [hzero]
            simp only [List.nil_append]
            calc (((s.events.dropWhile fun t => decide (s.window < now - t)) ++ [now]).filter
                  fun x => decide (now - x ≤ W)).length
                ≤ ((s.events.dropWhile fun t => decide (s.window < now - t)) ++ [now]).length :=
                  List.length_filter_le _ _
              _ = (s.events.dropWhile fun t => decide (s.window < now - t)).length + 1 := by simp
          have := le_trans hsub hrec
          rw [hL] at hcap
          omega
        · -- the window ends before `now`: `now` is filtered out
          rw [List.filter_append]
          have hnil : ([now].filter fun x => decide (T - W ≤ x) && decide (x ≤ T)) = [] := by
            simp
            intro h
            linarith
          rw [hnil, List.append_nil]
          exact hwin T
    · -- rejected by the window cap: only the eviction is recorded
      rw [allow_eq_window_reject hmd hcap]
      simp only [if_neg, Bool.false_eq_true, not_false_eq_true]
      refine ⟨hL, hW, hD, ?_, ?_, hlast, hgap, hwin⟩
      · exact ⟨dropped ++ (s.events.takeWhile fun t => decide (s.window < now - t)),
          hsucc_split, hdropped'⟩
      · intro x hx
        have := hle x hx
        linarith

/-- Running any nondecreasing sequence of call times preserves the
invariant, accumulating the successes of the trace. -/
theorem runAllow_inv {L : ℕ} {W D : ℚ} :
    ∀ (ts : List ℚ) (s : TwitchLimiter) (succs : List ℚ) (tmax : ℚ),
      LimInv L W D s succs tmax → List.Chain' (· ≤ ·) (tmax :: ts) →
      ∃ tmax', LimInv L W D (runAllow s ts).1
        (succs ++ successes (runAllow s ts).2) tmax' := by
  intro ts
  induction ts with
  | nil =>
    intro s succs tmax hInv _
    exact ⟨tmax, by simpa [runAllow, successes] using hInv⟩
  | cons t ts ih =>
    intro s succs tmax hInv hchain
    rw [List.chain'_cons] at hchain
    have hstep := allow_inv hInv hchain.1
    have hrec := ih (s.allow t).1
      (if (s.allow t).2 then succs ++ [t] else succs) t hstep hchain.2
    obtain ⟨tmax', hrec⟩ := hrec
    refine ⟨tmax', ?_⟩
    have hshape : (runAllow s (t :: ts)).1 = (runAllow (s.allow t).1 ts).1 ∧
        (runAllow s (t :: ts)).2 = (t, (s.allow t).2) :: (runAllow (s.allow t).1 ts).2 := by
      simp [runAllow]
    rw [hshape.1, hshape.2]
    cases hb : (s.allow t).2 with
    | false =>
      rw [hb] at hrec
      simpa [successes, hb] using hrec
    | true =>
      rw [hb] at hrec
      simp only [if_pos] at hrec
      simpa [successes, hb, List.append_assoc] using hrec

/-- The initial limiter state satisfies the invariant with no successes. -/
theorem initLimiter_inv : LimInv 20 30 (8/5) initLimiter [] 0 := by
  refine ⟨rfl, rfl, rfl, ⟨[], rfl, by simp⟩, by simp, rfl, List.chain'_nil, ?_⟩
  intro T
  simp

/-- A first `allow()` call on a fresh limiter at any realistic clock
reading `8/5 ≤ t` is accepted, leaving this state. -/
theorem initLimiter_allow_eq (t : ℚ) (ht : 8/5 ≤ t) :
    initLimiter.allow t =
      ({ limit := 20, window := 30, min_delay := 8/5, events := [t], last_message := t,
         metrics := { total_attempts := 1, allowed_messages := 1, rate_limited := 0,
                      min_delay_blocked := 0, avg_delay := 0 } }, true) := by
  have h1 : ¬ (t - initLimiter.last_message < initLimiter.min_delay) := by
    show ¬ (t - 0 < 8/5)
    push_neg
    linarith
  have h2 : ((initLimiter.events.dropWhile
      fun u => decide (initLimiter.window < t - u)).length < initLimiter.limit) := by
    simp [initLimiter]
  rw [allow_eq_accept h1 h2]
  rfl

/-- Calls arriving while `last_message` still equals the call time are all
rejected by the min-delay gate, only bumping the corresponding counters. -/
theorem runAllow_blocked (t : ℚ) :
    ∀ (n : ℕ) (s : TwitchLimiter), s.last_message = t → 0 < s.min_delay →
      (runAllow s (List.replicate n t)).2.map (·.2) = List.replicate n false
      ∧ (runAllow s (List.replicate n t)).1.metrics.allowed_messages
          = s.metrics.allowed_messages
      ∧ (runAllow s (List.replicate n t)).1.metrics.min_delay_blocked
          = s.metrics.min_delay_blocked + n
      ∧ (runAllow s (List.replicate n t)).1.metrics.rate_limited
          = s.metrics.rate_limited
      ∧ (runAllow s (List.replicate n t)).1.metrics.total_attempts
          = s.metrics.total_attempts + n := by
  intro n
  induction n with
  | zero => intro s _ _; simp [runAllow]
  | succ n ih =>
    intro s hlast hpos
    have hmd : t - s.last_message < s.min_delay := by
      rw [hlast]
      simpa using hpos
    have hstep := allow_eq_min_delay hmd
    have hrec := ih (s.allow t).1 (by rw [hstep]; exact hlast) (by rw [hstep]; exact hpos)
    rw [List.replicate_succ]
    have hshape : (runAllow s (t :: List.replicate n t)).1
          = (runAllow (s.allow t).1 (List.replicate n t)).1 ∧
        (runAllow s (t :: List.replicate n t)).2
          = (t, (s.allow t).2) :: (runAllow (s.allow t).1 (List.replicate n t)).2 := by
      simp [runAllow]
    obtain ⟨hm, ha, hb, hc, hd⟩ := hrec
    rw [hshape.1, hshape.2] at *
    refine ⟨?_, ?_, ?_, ?_, ?_⟩
    · rw [List.map_cons, hm, List.replicate_succ]
      rw [hstep]
    · rw [ha, hstep]
    · rw [hb, hstep]
      simp
      omega
    · rw [hc, hstep]
    · rw [hd, hstep]
      simp
      omega

/-- C1: for every nondecreasing sequence of nonnegative call times, at most
20 `allow()` calls succeed inside any trailing 30-second window and no two
successes are closer than 1.6 seconds; moreover, firing 25 calls at the
same instant `t` (any realistic clock reading with `8/5 ≤ t`) yields
exactly one success — the first — with the other 24 rejected by the
min-delay check (and none by the window check), matching the spec's stated
algorithm order. -/
theorem rate_limiter_c1 (ts : List ℚ) (hts : List.Chain' (· ≤ ·) (0 :: ts))
    (t : ℚ) (ht : 8/5 ≤ t) :
    (∀ T : ℚ, ((successes (runAllow initLimiter ts).2).filter
        fun x => decide (T - 30 ≤ x) && decide (x ≤ T)).length ≤ 20)
    ∧ (successes (runAllow initLimiter ts).2).Chain' (fun a b => 8/5 ≤ b - a)
    ∧ (runAllow initLimiter (List.replicate 25 t)).2.map (·.2)
        = true :: List.replicate 24 false
    ∧ (runAllow initLimiter (List.replicate 25 t)).1.metrics.allowed_messages = 1
    ∧ (runAllow initLimiter (List.replicate 25 t)).1.metrics.min_delay_blocked = 24
    ∧ (runAllow initLimiter (List.replicate 25 t)).1.metrics.rate_limited = 0 := by
  obtain ⟨tmax', hfin⟩ := runAllow_inv ts initLimiter [] 0 initLimiter_inv hts
  have hallow := initLimiter_allow_eq t ht
  have hrep : (List.replicate 25 t) = t :: List.replicate 24 t := rfl
  have hshape : (runAllow initLimiter (t :: List.replicate 24 t)).1
        = (runAllow (initLimiter.allow t).1 (List.replicate 24 t)).1 ∧
      (runAllow initLimiter (t :: List.replicate 24 t)).2
        = (t, (initLimiter.allow t).2) ::
            (runAllow (initLimiter.allow t).1 (List.replicate 24 t)).2 := by
    simp [runAllow]
  obtain ⟨hm, ha, hb, hc, _⟩ := runAllow_blocked t 24 (initLimiter.allow t).1
    (by rw [hallow]) (by rw [hallow]; norm_num)
  refine ⟨?_, ?_, ?_, ?_, ?_, ?_⟩
  · intro T
    have := hfin.windowBound T
    simpa using this
  · have := hfin.gap
    simpa using this
  · rw [hrep, hshape.2, List.map_cons, hm]
    rw [hallow]
  · rw [hrep, hshape.1, ha, hallow]
  · rw [hrep, hshape.1, hb, hallow]
  · rw [hrep, hshape.1, hc, hallow]

/-- Witness for `rate_limiter_c1` at a concrete input. -/
theorem rate_limiter_c1_witness :
    List.Chain' (· ≤ ·) ([0, 1, 3] : List ℚ) ∧ (8/5 : ℚ) ≤ 2 ∧
    ((∀ T : ℚ, ((successes (runAllow initLimiter [1, 3]).2).filter
        fun x => decide (T - 30 ≤ x) && decide (x ≤ T)).length ≤ 20)
    ∧ (successes (runAllow initLimiter [1, 3]).2).Chain' (fun a b => 8/5 ≤ b - a)
    ∧ (runAllow initLimiter (List.replicate 25 (2 : ℚ))).2.map (·.2)
        = true :: List.replicate 24 false
    ∧ (runAllow initLimiter (List.replicate 25 (2 : ℚ))).1.metrics.allowed_messages = 1
    ∧ (runAllow initLimiter (List.replicate 25 (2 : ℚ))).1.metrics.min_delay_blocked = 24
    ∧ (runAllow initLimiter (List.replicate 25 (2 : ℚ))).1.metrics.rate_limited = 0) :=
  ⟨by norm_num [List.chain'_cons], by norm_num,
    rate_limiter_c1 [1, 3] (by norm_num [List.chain'_cons]) 2 (by norm_num)⟩

end FameForecast

namespace FameForecast

/-! ## Reconnect backoff (outer loop of `IRCShard.run` in `irc.py`)

The shard starts with `reconnect_delay = 1`.  A successful `connect`
resets the delay to `1`; a failed attempt sleeps for the current delay and
then doubles it, capped at 60 seconds.  `backoffRun` maps a list of
connection-attempt outcomes (`true` = `connect` succeeded, `false` =
`connect` raised) to the list of delays actually slept. -/

def backoffRun : ℕ → List Bool → List ℕ
  | _, [] => []
  | _, true :: rest => backoffRun 1 rest
  | delay, false :: rest => delay :: backoffRun (min (delay * 2) 60) rest

/-- `IRCShard.__init__` sets `reconnect_delay = 1`. -/
def initReconnectDelay : ℕ := 1

/-- C5: three consecutive connection failures from a fresh shard sleep
1, 2 and 4 seconds; a failure right after any success sleeps 1 second
again (the success reset the delay); each failure doubles the delay with a
cap of 60; and every slept delay stays at most 60 whenever the current
delay does. -/
theorem backoff_c5 (d : ℕ) (hd : d ≤ 60) (rest : List Bool) :
    backoffRun initReconnectDelay [false, false, false] = [1, 2, 4]
    ∧ backoffRun d (true :: false :: rest) = 1 :: backoffRun 2 rest
    ∧ backoffRun d (false :: rest) = d :: backoffRun (min (d * 2) 60) rest
    ∧ ∀ x ∈ backoffRun d rest, x ≤ 60 := by
  refine ⟨rfl, rfl, rfl, ?_⟩
  induction rest generalizing d with
  | nil => simp [backoffRun]
  | cons o rest ih =>
    cases o with
    | true =>
      simp only [backoffRun]
      exact ih 1 (by omega)
    | false =>
      intro x hx
      rw [backoffRun] at hx
      rcases List.mem_cons.mp hx with h | h
      · omega
      · exact ih (min (d * 2) 60) (by omega) x h

/-- Witness for `backoff_c5` at a concrete input. -/
theorem backoff_c5_witness :
    (1 : ℕ) ≤ 60 ∧
    (backoffRun initReconnectDelay [false, false, false] = [1, 2, 4]
    ∧ backoffRun 1 (true :: false :: [false]) = 1 :: backoffRun 2 [false]
    ∧ backoffRun 1 (false :: [false]) = 1 :: backoffRun (min (1 * 2) 60) [false]
    ∧ ∀ x ∈ backoffRun 1 [false], x ≤ 60) :=
  ⟨by decide, backoff_c5 1 (by decide) [false]⟩

end FameForecast

namespace FameForecast

/-! ## Shard manager (`rebuild_shards` in `twitch_monitor_web.py`)

`rebuild_shards` sorts the active-channel set (`sorted(context.active_channels)`,
lexicographic by code point, modelled by `lexLe`/`pySorted`) and slices it
into consecutive groups of `MAX_CHANNELS_PER_CONN = 10` channels, starting
one `IRCShard` per non-empty group.  The slicing loop
`for i in range(0, len(channel_list), MAX_CHANNELS_PER_CONN)` is modelled
by `chunkShards`, fuelled by the list length. -/

def MAX_CHANNELS_PER_CONN : ℕ := 10

/-- Lexicographic comparison on code-point lists: the order Python's
`sorted` uses on strings. -/
def lexLe : List Char → List Char → Bool
  | [], _ => true
  | _ :: _, [] => false
  | a :: as, b :: bs =>
    if a.toNat < b.toNat then true
    else if b.toNat < a.toNat then false
    else lexLe as bs

def strLeB (a b : String) : Bool := lexLe a.data b.data

theorem lexLe_total : ∀ as bs, lexLe as bs = true ∨ lexLe bs as = true := by
  intro as
  induction as with
  | nil => intro bs; left; rfl
  | cons a as ih =>
    intro bs
    cases bs with
    | nil => right; rfl
    | cons b bs =>
      rcases Nat.lt_trichotomy a.toNat b.toNat with h | h | h
      · left; simp [lexLe, h]
      · rcases ih bs with h2 | h2
        · left; simp [lexLe, h, h2]
        · right; simp [lexLe, h, h2]
      · right; simp [lexLe, h]

theorem lexLe_trans : ∀ as bs cs, lexLe as bs = true → lexLe bs cs = true →
    lexLe as cs = true := by
  intro as
  induction as with
  | nil => intro bs cs _ _; rfl
  | cons a as ih =>
    intro bs cs h1 h2
    cases bs with
    | nil => simp [lexLe] at h1
    | cons b bs =>
      cases cs with
      | nil => simp [lexLe] at h2
      | cons c cs =>
        simp only [lexLe] at h1 h2 ⊢
        split_ifs at h1 h2 ⊢ with hab hba hbc hcb hac hca
        all_goals try rfl
        all_goals try omega
        all_goals exact ih bs cs h1 h2

instance : IsTotal String (fun a b => strLeB a b = true) :=
  ⟨fun a b => lexLe_total a.data b.data⟩

instance : IsTrans String (fun a b => strLeB a b = true) :=
  ⟨fun a b c => lexLe_trans a.data b.data c.data⟩

/-- Model of Python's `sorted` on strings. -/
def pySorted (l : List String) : List String :=
  l.insertionSort (fun a b => strLeB a b = true)

/-- The shard-slicing loop, fuelled by the list length. -/
def chunkShards : ℕ → List String → List (List String)
  | _, [] => []
  | 0, l => [l]
  | fuel + 1, a :: rest =>
    ((a :: rest).take MAX_CHANNELS_PER_CONN) ::
      chunkShards fuel ((a :: rest).drop MAX_CHANNELS_PER_CONN)

/-- `rebuild_shards`, translated from `twitch_monitor_web.py`: sort the
active set, slice into groups of at most 10, one shard per non-empty
group. -/
def rebuild_shards (active : List String) : List (List String) :=
  chunkShards (pySorted active).length (pySorted active)

theorem chunkShards_flatten :
    ∀ (fuel : ℕ) (l : List String), l.length ≤ fuel →
      (chunkShards fuel l).flatten = l := by
  intro fuel
  induction fuel with
  | zero =>
    intro l hl
    have : l = [] := List.length_eq_zero.mp (Nat.le_zero.mp hl)
    subst this
    rfl
  | succ fuel ih =>
    intro l hl
    cases l with
    | nil => rfl
    | cons a rest =>
      rw [chunkShards, List.flatten_cons, ih]
      · exact List.take_append_drop _ _
      · simp [MAX_CHANNELS_PER_CONN] at hl ⊢
        omega

theorem chunkShards_mem :
    ∀ (fuel : ℕ) (l : List String) (g : List String), l.length ≤ fuel →
      g ∈ chunkShards fuel l → g.length ≤ MAX_CHANNELS_PER_CONN ∧ g ≠ [] := by
  intro fuel
  induction fuel with
  | zero =>
    intro l g hl hg
    have : l = [] := List.length_eq_zero.mp (Nat.le_zero.mp hl)
    subst this
    simp [chunkShards] at hg
  | succ fuel ih =>
    intro l g hl hg
    cases l with
    | nil => simp [chunkShards] at hg
    | cons a rest =>
      rw [chunkShards] at hg
      rcases List.mem_cons.mp hg with h | h
      · subst h
        constructor
        · exact le_trans (by simp) (le_of_eq rfl)
        · simp [MAX_CHANNELS_PER_CONN]
      · exact ih _ g (by simp [MAX_CHANNELS_PER_CONN] at hl ⊢; omega) h

/-- In a list of groups whose per-group counts of `c` sum to zero, no
group contains `c`. -/
theorem countP_eq_zero_of_sum {c : String} :
    ∀ gs : List (List String), (gs.map (List.count c)).sum = 0 →
      gs.countP (fun g => decide (c ∈ g)) = 0 := by
  intro gs
  induction gs with
  | nil => intro _; rfl
  | cons g gs ih =>
    intro h
    simp only [List.map_cons, List.sum_cons] at h
    have hg : List.count c g = 0 := by omega
    have hgs := ih (by omega)
    rw [List.countP_cons, hgs]
    simp [List.count_eq_zero.mp hg]

/-- In a list of groups whose per-group counts of `c` sum to one, exactly
one group contains `c`. -/
theorem countP_eq_one_of_sum {c : String} :
    ∀ gs : List (List String), (gs.map (List.count c)).sum = 1 →
      gs.countP (fun g => decide (c ∈ g)) = 1 := by
  intro gs
  induction gs with
  | nil => intro h; simp at h
  | cons g gs ih =>
    intro h
    simp only [List.map_cons, List.sum_cons] at h
    rw [List.countP_cons]
    by_cases hg : c ∈ g
    · have hpos : 0 < List.count c g := List.count_pos_iff.mpr hg
      have hzero : (gs.map (List.count c)).sum = 0 := by omega
      rw [countP_eq_zero_of_sum gs hzero]
      simp [hg]
    · have hcg : List.count c g = 0 := List.count_eq_zero.mpr hg
      rw [ih (by omega)]
      simp [hg]

end FameForecast

namespace FameForecast

/-- A concrete active set of 23 channels (given unsorted). -/
def demo23 : List String :=
  ["zephyr", "alice", "mango", "bob", "yara", "carol", "xeno", "dave", "wendy",
   "erin", "victor", "frank", "uma", "grace", "tom", "heidi", "sam", "ivan",
   "rose", "judy", "pat", "kim", "oscar"]

/-- C3: `rebuild_shards` groups the sorted active set into shards of at
most 10 channels each (every shard non-empty), the shards' channels are
exactly the active set in sorted lexicographic order, every active
channel belongs to exactly one shard, and 23 active channels produce
exactly 3 shards owning 10, 10 and 3 channels. -/
theorem rebuild_shards_c3 (active : List String) (hnd : active.Nodup) :
    (∀ g ∈ rebuild_shards active, g.length ≤ 10 ∧ g ≠ [])
    ∧ List.Perm (rebuild_shards active).flatten active
    ∧ (rebuild_shards active).flatten.Sorted (fun a b => strLeB a b = true)
    ∧ (∀ c ∈ active, (rebuild_shards active).countP (fun g => decide (c ∈ g)) = 1)
    ∧ (rebuild_shards demo23).map List.length = [10, 10, 3]
    ∧ (rebuild_shards demo23).flatten = pySorted demo23 := by
  have hflat : (rebuild_shards active).flatten = pySorted active :=
    chunkShards_flatten _ _ le_rfl
  have hperm : List.Perm (pySorted active) active := List.perm_insertionSort _ _
  refine ⟨?_, ?_, ?_, ?_, by decide, by decide⟩
  · intro g hg
    have := chunkShards_mem _ _ g le_rfl hg
    simpa [MAX_CHANNELS_PER_CONN] using this
  · rw [hflat]
    exact hperm
  · rw [hflat]
    exact List.sorted_insertionSort _ _
  · intro c hc
    have hcount : active.count c = 1 := List.count_eq_one_of_mem hnd hc
    have hsum : ((rebuild_shards active).map (List.count c)).sum = 1 := by
      rw [← List.count_flatten, hflat, hperm.count_eq]
      exact hcount
    exact countP_eq_one_of_sum _ hsum

/-- Witness for `rebuild_shards_c3` at the concrete 23-channel set. -/
theorem rebuild_shards_c3_witness :
    demo23.Nodup ∧
    ((∀ g ∈ rebuild_shards demo23, g.length ≤ 10 ∧ g ≠ [])
    ∧ List.Perm (rebuild_shards demo23).flatten demo23
    ∧ (rebuild_shards demo23).flatten.Sorted (fun a b => strLeB a b = true)
    ∧ (∀ c ∈ demo23, (rebuild_shards demo23).countP (fun g => decide (c ∈ g)) = 1)
    ∧ (rebuild_shards demo23).map List.length = [10, 10, 3]
    ∧ (rebuild_shards demo23).flatten = pySorted demo23) :=
  ⟨by decide, rebuild_shards_c3 demo23 (by decide)⟩

end FameForecast

namespace FameForecast

/-! ## Audio-capture backpressure (`audio_worker` in `audio.py`)

One iteration of the capture loop reads a raw chunk, then checks
`audio_queue.qsize() > 50`: if so it `continue`s (dropping the chunk and
leaving `idx` unchanged), otherwise it enqueues a record with the channel,
the samples and the chunk's time bounds `idx*CHUNK_DURATION`,
`(idx+1)*CHUNK_DURATION` and increments `idx`.  The queue is modelled as a
list (enqueue appends), the sample payload as an opaque type. -/

def CHUNK_DURATION : ℕ := 5

structure AudioChunk (σ : Type) where
  channel : String
  audio_data : σ
  chunk_start : ℕ
  chunk_end : ℕ

/-- One backpressure-guarded enqueue step of `audio_worker`. -/
def audioStep {σ : Type} (channel : String) (q : List (AudioChunk σ))
    (idx : ℕ) (raw : σ) : List (AudioChunk σ) × ℕ :=
  if 50 < q.length then (q, idx)
  else (q ++ [⟨channel, raw, idx * CHUNK_DURATION, (idx + 1) * CHUNK_DURATION⟩], idx + 1)

/-- C7: when the audio queue holds more than 50 items the freshly read
chunk is silently discarded (queue and index unchanged, no blocking);
otherwise it is enqueued as a record carrying the channel, the samples and
`chunk_start = idx*CHUNK_DURATION`, `chunk_end = (idx+1)*CHUNK_DURATION`. -/
theorem audio_backpressure_c7 {σ : Type} (channel : String)
    (qbig qsmall : List (AudioChunk σ)) (idx : ℕ) (raw : σ)
    (hbig : 50 < qbig.length) (hsmall : qsmall.length ≤ 50) :
    audioStep channel qbig idx raw = (qbig, idx)
    ∧ audioStep channel qsmall idx raw =
        (qsmall ++ [⟨channel, raw, idx * CHUNK_DURATION, (idx + 1) * CHUNK_DURATION⟩],
          idx + 1) := by
  constructor
  · rw [audioStep, if_pos hbig]
  · rw [audioStep, if_neg (by omega)]

/-- Witness for `audio_backpressure_c7` at a concrete input. -/
theorem audio_backpressure_c7_witness :
    50 < (List.replicate 51 (⟨"a", 0, 0, 5⟩ : AudioChunk ℕ)).length
    ∧ ([] : List (AudioChunk ℕ)).length ≤ 50
    ∧ (audioStep "a" (List.replicate 51 (⟨"a", 0, 0, 5⟩ : AudioChunk ℕ)) 3 7
          = (List.replicate 51 ⟨"a", 0, 0, 5⟩, 3)
      ∧ audioStep "a" ([] : List (AudioChunk ℕ)) 3 7
          = ([⟨"a", 7, 3 * CHUNK_DURATION, (3 + 1) * CHUNK_DURATION⟩], 3 + 1)) :=
  ⟨by simp, by simp,
    audio_backpressure_c7 "a" (List.replicate 51 ⟨"a", 0, 0, 5⟩) [] 3 7 (by simp) (by simp)⟩

end FameForecast

namespace FameForecast

/-! ## Event bridge dispatch (`QueueBridge._dispatch` in `web/queue_bridge.py`)

`_dispatch` first matches the special command tags on the tuple's first
element (`GUI_UPDATE_META`, `ONLINE_PROMPT`, `GUI_JOIN_NOW`), then treats
any remaining 3-tuple `(channel, tag, text)` as a standard message:
swallowed when the channel is one of the reserved internal channels
`SYSTEM` / `EXPERIMENT_DATA`, otherwise emitted to all subscribers as a
`chat_message` carrying channel, tag, text and a stamped receipt time. -/

inductive DispatchResult
  | command
  | swallowed
  | chat (channel tag text : String) (timestamp : ℚ)
deriving Repr, DecidableEq

/-- `_dispatch` on a 3-tuple of strings, with `now` the stamped receipt
time. -/
def queueBridgeDispatch (channel tag text : String) (now : ℚ) : DispatchResult :=
  if channel = "GUI_UPDATE_META" then .command
  else if channel = "ONLINE_PROMPT" then .command
  else if channel = "GUI_JOIN_NOW" then .command
  else if channel ∈ (["SYSTEM", "EXPERIMENT_DATA"] : List String) then .swallowed
  else .chat channel tag text now

/-- C8: a generic 3-tuple whose first element is not a special command tag
is swallowed when its channel is a reserved internal channel (`SYSTEM` or
`EXPERIMENT_DATA`), and otherwise emitted as a `chat_message` carrying the
channel, kind, text and receipt time. -/
theorem bridge_dispatch_c8 (chR chN tag text : String) (now : ℚ)
    (hR : chR = "SYSTEM" ∨ chR = "EXPERIMENT_DATA")
    (hN : chN ∉ (["GUI_UPDATE_META", "ONLINE_PROMPT", "GUI_JOIN_NOW",
                  "SYSTEM", "EXPERIMENT_DATA"] : List String)) :
    queueBridgeDispatch chR tag text now = .swallowed
    ∧ queueBridgeDispatch chN tag text now = .chat chN tag text now := by
  simp only [List.mem_cons, List.mem_singleton, not_or] at hN
  obtain ⟨h1, h2, h3, h4, h5⟩ := hN
  constructor
  · rcases hR with h | h <;> subst h <;> rfl
  · rw [queueBridgeDispatch, if_neg h1, if_neg h2, if_neg h3,
      if_neg (by simp [h4, h5])]

/-- Witness for `bridge_dispatch_c8` at concrete inputs. -/
theorem bridge_dispatch_c8_witness :
    (("SYSTEM" : String) = "SYSTEM" ∨ ("SYSTEM" : String) = "EXPERIMENT_DATA")
    ∧ ("foo" : String) ∉ (["GUI_UPDATE_META", "ONLINE_PROMPT", "GUI_JOIN_NOW",
                  "SYSTEM", "EXPERIMENT_DATA"] : List String)
    ∧ (queueBridgeDispatch "SYSTEM" "CHAT" "hi" 2 = .swallowed
      ∧ queueBridgeDispatch "foo" "CHAT" "hi" 2 = .chat "foo" "CHAT" "hi" 2) :=
  ⟨Or.inl rfl, by decide,
    bridge_dispatch_c8 "SYSTEM" "foo" "CHAT" "hi" 2 (Or.inl rfl) (by decide)⟩

end FameForecast

namespace FameForecast

/-! ## Bridge subscriber lifecycle (`web/socket_events.py`)

The module keeps a set of connected client sids and an optional pending
deferred-shutdown timer.  `handle_connect` cancels any pending timer and
adds the sid; `handle_disconnect` removes the sid and, when no clients
remain, arms a 3.0-second timer whose callback (`_trigger_shutdown`) exits
the whole process.  The timer elapsing is modelled by an explicit
`timer_fire` event, a no-op when the timer was cancelled; after the
process has exited no further events are processed. -/

structure SocketState where
  connected_clients : List String
  shutdown_timer : Option ℚ
  exited : Bool
deriving Repr, DecidableEq

inductive SocketEv
  | connect (sid : String)
  | disconnect (sid : String)
  | timer_fire
deriving Repr, DecidableEq

/-- `threading.Timer(3.0, _trigger_shutdown)`. -/
def SHUTDOWN_DELAY : ℚ := 3

def socketStep (st : SocketState) (ev : SocketEv) : SocketState :=
  if st.exited then st
  else
    match ev with
    | .connect sid =>
      { st with
          shutdown_timer := none
          connected_clients :=
            if sid ∈ st.connected_clients then st.connected_clients
            else st.connected_clients ++ [sid] }
    | .disconnect sid =>
      let cs := st.connected_clients.erase sid
      if cs.length = 0 then
        { st with connected_clients := cs, shutdown_timer := some SHUTDOWN_DELAY }
      else { st with connected_clients := cs }
    | .timer_fire =>
      match st.shutdown_timer with
      | some _ => { st with exited := true }
      | none => st

def socketRun (st : SocketState) (evs : List SocketEv) : SocketState :=
  evs.foldl socketStep st

/-- `handle_connect` on a live process: cancel any pending timer, add the
sid to the client set. -/
theorem socketStep_connect_eq (st : SocketState) (sid : String)
    (h : st.exited = false) :
    socketStep st (.connect sid) =
      { st with
          shutdown_timer := none
          connected_clients :=
            if sid ∈ st.connected_clients then st.connected_clients
            else st.connected_clients ++ [sid] } := by
  rw [socketStep, if_neg (by simp [h])]

/-- `handle_disconnect` on a live process when the last client leaves:
arm the deferred-shutdown timer. -/
theorem socketStep_disconnect_zero_eq (st : SocketState) (sid : String)
    (h : st.exited = false) (hz : (st.connected_clients.erase sid).length = 0) :
    socketStep st (.disconnect sid) =
      { st with
          connected_clients := st.connected_clients.erase sid
          shutdown_timer := some SHUTDOWN_DELAY } := by
  rw [socketStep, if_neg (by simp [h])]
  simp [hz]

theorem socketStep_disconnect_exited (st : SocketState) (sid : String)
    (h : st.exited = false) :
    (socketStep st (.disconnect sid)).exited = false := by
  rw [socketStep, if_neg (by simp [h])]
  by_cases hz : (st.connected_clients.erase sid).length = 0 <;> simp [hz, h]

/-- An armed timer firing exits the process. -/
theorem socketStep_fire_armed (st : SocketState) (d : ℚ)
    (h : st.exited = false) (ha : st.shutdown_timer = some d) :
    socketStep st .timer_fire = { st with exited := true } := by
  rw [socketStep, if_neg (by simp [h])]
  simp [ha]

/-- A cancelled timer cannot fire. -/
theorem socketStep_fire_cancelled (st : SocketState)
    (h : st.exited = false) (ha : st.shutdown_timer = none) :
    socketStep st .timer_fire = st := by
  rw [socketStep, if_neg (by simp [h])]
  simp [ha]

/-- C9: attaching a subscriber cancels any pending deferred-shutdown
timer; a detach that leaves zero subscribers arms the 3.0-second timer,
whose firing exits the whole process; and a detach followed by a reattach
before the timer fires never triggers the shutdown. -/
theorem socket_lifecycle_c9 (st : SocketState) (sid sid' : String)
    (hlive : st.exited = false) :
    (socketStep st (.connect sid)).shutdown_timer = none
    ∧ ((st.connected_clients.erase sid).length = 0 →
        (socketStep st (.disconnect sid)).shutdown_timer = some 3
        ∧ (socketStep (socketStep st (.disconnect sid)) .timer_fire).exited = true)
    ∧ (socketRun st [.disconnect sid, .connect sid', .timer_fire]).exited = false := by
  refine ⟨?_, ?_, ?_⟩
  · rw [socketStep_connect_eq st sid hlive]
  · intro hzero
    rw [socketStep_disconnect_zero_eq st sid hlive hzero]
    refine ⟨rfl, ?_⟩
    rw [socketStep_fire_armed _ SHUTDOWN_DELAY (by simpa using hlive) rfl]
  · show (socketStep (socketStep (socketStep st (.disconnect sid)) (.connect sid'))
      .timer_fire).exited = false
    have h1 := socketStep_disconnect_exited st sid hlive
    rw [socketStep_connect_eq _ sid' h1]
    rw [socketStep_fire_cancelled _ (by simpa using h1) rfl]
    simpa using h1

/-- Witness for `socket_lifecycle_c9` at a concrete state. -/
theorem socket_lifecycle_c9_witness :
    (SocketState.mk ["s1"] none false).exited = false
    ∧ ((socketStep (SocketState.mk ["s1"] none false) (.connect "s2")).shutdown_timer = none
    ∧ (((SocketState.mk ["s1"] none false).connected_clients.erase "s1").length = 0 →
        (socketStep (SocketState.mk ["s1"] none false) (.disconnect "s1")).shutdown_timer
            = some 3
        ∧ (socketStep (socketStep (SocketState.mk ["s1"] none false) (.disconnect "s1"))
            .timer_fire).exited = true)
    ∧ (socketRun (SocketState.mk ["s1"] none false)
        [.disconnect "s1", .connect "s2", .timer_fire]).exited = false) :=
  ⟨rfl, socket_lifecycle_c9 (SocketState.mk ["s1"] none false) "s1" "s2" rfl⟩

end FameForecast

namespace FameForecast

/-! ## Handler registration control flow (`web/socket_events.py`)

`register(socketio, context)` executes its body top to bottom; each
`@socketio.on(...)`-decorated nested function definition it reaches
installs one WebSocket handler.  `_trigger_shutdown` likewise executes top
to bottom, but `os._exit(0)` terminates the process unconditionally, so
statements after it never run.  The two bodies are transcribed
statement-by-statement; `execRegistered` returns the handler names whose
definitions are actually reached. -/

inductive PyStmt
  | defHandler (event : String)
  | expr
  | exitProc
deriving Repr, DecidableEq

/-- Body of `register`: the two decorated definitions of
`handle_connect` and `handle_disconnect`. -/
def registerBody : List PyStmt :=
  [.defHandler "connect", .defHandler "disconnect"]

/-- Body of `_trigger_shutdown`: the `print` call, `os._exit(0)`, then the
five decorated definitions that follow it inside the same function. -/
def triggerShutdownBody : List PyStmt :=
  [.expr,
   .exitProc,
   .defHandler "send_chat",
   .defHandler "join_channel",
   .defHandler "skip_channel",
   .defHandler "get_active_channels",
   .defHandler "ping"]

/-- Handler names whose registrations are reached when a body executes:
execution stops at `os._exit(0)`. -/
def execRegistered : List PyStmt → List String
  | [] => []
  | .defHandler e :: rest => e :: execRegistered rest
  | .expr :: rest => execRegistered rest
  | .exitProc :: _ => []

/-- The only handler whose body puts a `(channel, text)` item on the send
queue is `send_chat` (`context.send_queue.put((channel, message))`). -/
def putsOnSendQueue (event : String) : Bool := event = "send_chat"

/-- The only handler whose body puts a `GUI_JOIN_NOW` command on the event
queue is `join_channel`
(`context.gui_queue.put(('GUI_JOIN_NOW', 'SYSTEM', channel))`). -/
def putsJoinNowOnEventQueue (event : String) : Bool := event = "join_channel"

/-- C10: `register` installs exactly the `connect` and `disconnect`
handlers; executing `_trigger_shutdown` reaches none of the definitions
placed after its unconditional `os._exit(0)`, so no installed handler ever
puts a send-queue item or a `GUI_JOIN_NOW` command on the queues. -/
theorem socket_register_c10 :
    execRegistered registerBody = ["connect", "disconnect"]
    ∧ execRegistered triggerShutdownBody = []
    ∧ (∀ e ∈ execRegistered registerBody ++ execRegistered triggerShutdownBody,
        putsOnSendQueue e = false ∧ putsJoinNowOnEventQueue e = false)
    ∧ "send_chat" ∉ execRegistered registerBody ++ execRegistered triggerShutdownBody
    ∧ "join_channel" ∉ execRegistered registerBody ++ execRegistered triggerShutdownBody := by
  decide

end FameForecast

namespace FameForecast

/-! ## Line dispatch and `parse_privmsg` (`IRCShard` in `irc.py`)

Lines are modelled as `List Char`.  Python string operations are
translated: `split(sep, 1)` becomes `splitOnceSub` (returning `none` when
the separator is absent, which in the source leaves `parts` short or
raises a `ValueError` caught by the enclosing `try`), `strip()` becomes
`pyStrip`, `lstrip("#")` drops leading `#` characters, `lower()` maps
`Char.toLower`, and `in` becomes `containsSub`.  All Python exception
paths inside `parse_privmsg`'s `try` block are embedded as a `none`
result, so the embedded parser is total: a malformed line yields no chat
event and cannot terminate the session. -/

def splitOnceSub (pat : List Char) : List Char → Option (List Char × List Char)
  | [] => none
  | a :: rest =>
    if pat.isPrefixOf (a :: rest) then some ([], (a :: rest).drop pat.length)
    else
      match splitOnceSub pat rest with
      | some (pre, post) => some (a :: pre, post)
      | none => none

/-- Python's `sub in s`. -/
def containsSub (pat l : List Char) : Bool := (splitOnceSub pat l).isSome

def trimRight (l : List Char) : List Char :=
  (l.reverse.dropWhile Char.isWhitespace).reverse

/-- Python's `str.strip()`. -/
def pyStrip (l : List Char) : List Char :=
  trimRight (l.dropWhile Char.isWhitespace)

/-- Python's `str.lstrip("#")`. -/
def lstripHash (l : List Char) : List Char := l.dropWhile (· = '#')

/-- Python's `str.lower()`. -/
def pyLower (l : List Char) : List Char := l.map Char.toLower

structure PrivMsg where
  channel : List Char
  user : List Char
  text : List Char
deriving Repr, DecidableEq

/-- `IRCShard.parse_privmsg`, translated from the source: optionally strip
the leading `@tags` word, split once on `PRIVMSG`, strip header and body,
require a `:` in the body, split channel from message, normalize the
channel (`strip`, `lstrip("#")`, `lower`), extract the user from the
header before the first `!` (dropping the leading `:`), defaulting to
`"Unknown"`, lowercased.  Every early-`return` and exception path yields
`none`. -/
def parse_privmsg (line : List Char) : Option PrivMsg :=
  let step1 : Option (List Char) :=
    if ['@'].isPrefixOf line then
      match splitOnceSub [' '] line with
      | some (_, rest) => some rest
      | none => none
    else some line
  match step1 with
  | none => none
  | some line1 =>
    match splitOnceSub "PRIVMSG".data line1 with
    | none => none
    | some (pre, post) =>
      let header := pyStrip pre
      let body := pyStrip post
      match splitOnceSub [':'] body with
      | none => none
      | some (chan_part, msg_part) =>
        let chan := pyLower (lstripHash (pyStrip chan_part))
        let msg := pyStrip msg_part
        let raw_user :=
          match splitOnceSub ['!'] header with
          | some (pre_user, _) => pre_user.drop 1
          | none => "Unknown".data
        some ⟨chan, pyLower raw_user, msg⟩

inductive LineAction
  | skip
  | pong
  | privmsg (res : Option PrivMsg)
  | notice
  | presence
deriving Repr, DecidableEq

/-- The per-line dispatch of the `Connected` receive loop: empty lines are
skipped, `PING` lines are answered with one pong, then `PRIVMSG`,
`NOTICE` and `JOIN`/`PART` lines are routed to their parsers; anything
else is ignored. -/
def dispatchLine (line : List Char) : LineAction :=
  if line = [] then .skip
  else if "PING".data.isPrefixOf line then .pong
  else if containsSub "PRIVMSG".data line then .privmsg (parse_privmsg line)
  else if containsSub "NOTICE".data line then .notice
  else if containsSub "JOIN".data line || containsSub "PART".data line then .presence
  else .skip

/-- Pongs sent in response to one dispatched line. -/
def pongsOf : LineAction → ℕ
  | .pong => 1
  | _ => 0

/-- The chat event (if any) produced by one dispatched line. -/
def chatEventOf : LineAction → Option PrivMsg
  | .privmsg r => r
  | _ => none

/-- C6: a heartbeat line starting with `PING` is answered with exactly one
pong and produces no chat event; the well-formed chat line
`":alice!alice@x PRIVMSG #foo :hello"` parses to channel `foo`, user
`alice`, text `hello`; and the `PRIVMSG` line missing the body's `:`
separator is dropped (no chat event) by the total parser, so it cannot
raise or terminate the session. -/
theorem line_parsing_c6 (line : List Char)
    (hping : "PING".data.isPrefixOf line = true) :
    (pongsOf (dispatchLine line) = 1 ∧ chatEventOf (dispatchLine line) = none)
    ∧ dispatchLine ":alice!alice@x PRIVMSG #foo :hello".data
        = .privmsg (some ⟨"foo".data, "alice".data, "hello".data⟩)
    ∧ dispatchLine ":alice!alice@x PRIVMSG #foo hello".data = .privmsg none
    ∧ parse_privmsg ":alice!alice@x PRIVMSG #foo hello".data = none := by
  refine ⟨?_, by decide, by decide, by decide⟩
  have hne : line ≠ [] := by
    intro h
    subst h
    simp [List.isPrefixOf] at hping
  rw [dispatchLine, if_neg hne, if_pos hping]
  exact ⟨rfl, rfl⟩

/-- Witness for `line_parsing_c6` on a concrete heartbeat line. -/
theorem line_parsing_c6_witness :
    "PING".data.isPrefixOf "PING :tmi.twitch.tv".data = true
    ∧ ((pongsOf (dispatchLine "PING :tmi.twitch.tv".data) = 1
        ∧ chatEventOf (dispatchLine "PING :tmi.twitch.tv".data) = none)
    ∧ dispatchLine ":alice!alice@x PRIVMSG #foo :hello".data
        = .privmsg (some ⟨"foo".data, "alice".data, "hello".data⟩)
    ∧ dispatchLine ":alice!alice@x PRIVMSG #foo hello".data = .privmsg none
    ∧ parse_privmsg ":alice!alice@x PRIVMSG #foo hello".data = none) :=
  ⟨by decide, line_parsing_c6 "PING :tmi.twitch.tv".data (by decide)⟩

end FameForecast

namespace FameForecast

/-! ## Outbound send step (`IRCShard.run`, OUTGOING MESSAGES block)

One iteration of the `Connected` loop tries a non-blocking pop from the
shared outbound send queue.  The popped `(target_chan, msg)` is *not*
checked against `self.channels`: the block spins on the rate limiter
(`time.sleep(0.05)` between attempts, modelled by `spinAllow` with fuel),
sends `PRIVMSG #target_chan :msg`, updates
`context.bot_state[target_chan]` with the last message and send time, and
emits a `(target_chan, 'SELF', "You: msg")` event. -/

/-- The `while not self.limiter.allow(): time.sleep(0.05)` spin, fuelled:
returns the limiter state after the attempts and the time of the
successful attempt, if any attempt within the fuel succeeded. -/
def spinAllow : ℕ → TwitchLimiter → ℚ → TwitchLimiter × Option ℚ
  | 0, lim, _ => (lim, none)
  | fuel + 1, lim, now =>
    match lim.allow now with
    | (lim', true) => (lim', some now)
    | (lim', false) => spinAllow fuel lim' (now + 1/20)

structure SendStepResult where
  queue : List (String × String)
  limiter : TwitchLimiter
  sent : List String
  gui : List (String × String × String)
  bot_state : String → Option (String × ℚ)
  waiting : Bool

/-- The outgoing-message block of one `Connected` iteration.  `bot_state`
is the shared per-channel last-message/last-time map; `now` the clock at
the first limiter attempt.  The send time recorded in `bot_state` is the
time of the successful limiter attempt. -/
def sendStep (bot_state : String → Option (String × ℚ)) (lim : TwitchLimiter)
    (sendq : List (String × String)) (now : ℚ) (fuel : ℕ) : SendStepResult :=
  match sendq with
  | [] => ⟨[], lim, [], [], bot_state, false⟩
  | (target_chan, msg) :: rest =>
    match spinAllow fuel lim now with
    | (lim', none) => ⟨rest, lim', [], [], bot_state, true⟩
    | (lim', some tsend) =>
      ⟨rest, lim',
       ["PRIVMSG #" ++ target_chan ++ " :" ++ msg ++ "\r\n"],
       [(target_chan, "SELF", "You: " ++ msg)],
       fun c => if c = target_chan then some (msg, tsend) else bot_state c,
       false⟩

/-- Counterexample to C2 as stated: a session owning only channel `a`
still pops the queue item addressed to channel `b` and sends it to `#b` —
the source never compares `target_chan` with `self.channels`, so it is
not the case that only items addressed to one of this session's own
channels are popped and sent by it. -/
theorem send_queue_c2_counterexample :
    (sendStep (fun _ => none) initLimiter [("b", "hi")] 10 1).sent
        = ["PRIVMSG #b :hi\r\n"]
    ∧ (sendStep (fun _ => none) initLimiter [("b", "hi")] 10 1).queue = []
    ∧ ("b" : String) ∉ (["a"] : List String) := by
  have hallow := initLimiter_allow_eq 10 (by norm_num)
  have hspin : spinAllow 1 initLimiter 10 =
      ({ limit := 20, window := 30, min_delay := 8/5, events := [10], last_message := 10,
         metrics := { total_attempts := 1, allowed_messages := 1, rate_limited := 0,
                      min_delay_blocked := 0, avg_delay := 0 } }, some 10) := by
    rw [show spinAllow 1 initLimiter 10 =
        (match initLimiter.allow 10 with
         | (lim', true) => (lim', some 10)
         | (lim', false) => spinAllow 0 lim' (10 + 1/20)) from rfl, hallow]
  refine ⟨?_, ?_, by decide⟩ <;> simp [sendStep, hspin]

/-- C2 (amended): each `Connected` iteration pops at most one item from
the outbound send queue — with no check that the item is addressed to one
of this session's channels, whichever session polls first handles it —
and the popped item is sent exactly once after the rate limiter allows
it, a Self-kind chat event recording it is emitted, and the per-channel
last-message/last-time state is updated for the addressed channel. -/
theorem send_queue_c2_amended (bot_state : String → Option (String × ℚ))
    (lim lim' : TwitchLimiter) (chan msg : String) (rest : List (String × String))
    (now tsend : ℚ) (fuel : ℕ)
    (hspin : spinAllow fuel lim now = (lim', some tsend)) :
    (sendStep bot_state lim [] now fuel).sent = []
    ∧ (sendStep bot_state lim [] now fuel).queue = []
    ∧ (sendStep bot_state lim ((chan, msg) :: rest) now fuel).queue = rest
    ∧ (sendStep bot_state lim ((chan, msg) :: rest) now fuel).sent
        = ["PRIVMSG #" ++ chan ++ " :" ++ msg ++ "\r\n"]
    ∧ (sendStep bot_state lim ((chan, msg) :: rest) now fuel).gui
        = [(chan, "SELF", "You: " ++ msg)]
    ∧ (sendStep bot_state lim ((chan, msg) :: rest) now fuel).bot_state chan
        = some (msg, tsend)
    ∧ (sendStep bot_state lim ((chan, msg) :: rest) now fuel).limiter = lim' := by
  refine ⟨rfl, rfl, ?_, ?_, ?_, ?_, ?_⟩ <;> simp [sendStep, hspin]

/-- Witness for `send_queue_c2_amended` at a concrete input. -/
theorem send_queue_c2_amended_witness :
    spinAllow 1 initLimiter 10 = ((initLimiter.allow 10).1, some 10)
    ∧ ((sendStep (fun _ => none) initLimiter [] 10 1).sent = []
    ∧ (sendStep (fun _ => none) initLimiter [] 10 1).queue = []
    ∧ (sendStep (fun _ => none) initLimiter [("a", "hey")] 10 1).queue = []
    ∧ (sendStep (fun _ => none) initLimiter [("a", "hey")] 10 1).sent
        = ["PRIVMSG #a :hey\r\n"]
    ∧ (sendStep (fun _ => none) initLimiter [("a", "hey")] 10 1).gui
        = [("a", "SELF", "You: hey")]
    ∧ (sendStep (fun _ => none) initLimiter [("a", "hey")] 10 1).bot_state "a"
        = some ("hey", 10)
    ∧ (sendStep (fun _ => none) initLimiter [("a", "hey")] 10 1).limiter
        = (initLimiter.allow 10).1) :=
  ⟨by
    have hallow := initLimiter_allow_eq 10 (by norm_num)
    rw [show spinAllow 1 initLimiter 10 =
        (match initLimiter.allow 10 with
         | (lim', true) => (lim', some 10)
         | (lim', false) => spinAllow 0 lim' (10 + 1/20)) from rfl, hallow],
   send_queue_c2_amended (fun _ => none) initLimiter (initLimiter.allow 10).1
      "a" "hey" [] 10 10 1 (by
        have hallow := initLimiter_allow_eq 10 (by norm_num)
        rw [show spinAllow 1 initLimiter 10 =
            (match initLimiter.allow 10 with
             | (lim', true) => (lim', some 10)
             | (lim', false) => spinAllow 0 lim' (10 + 1/20)) from rfl, hallow])⟩

end FameForecast

namespace FameForecast

/-! ## Shard termination (`IRCShard.part_channels` / `IRCShard.cleanup`)

`cleanup` runs when the shard thread terminates: if a socket is open and
channels are owned it calls `part_channels(self.channels)` — which sends a
best-effort `PART` per channel, emits a system event per channel, and
*reassigns `self.channels` to the list of channels not parted* — then
closes the socket, and, when a data directory is configured, writes the
metrics snapshot `{shard_id, channels, message_count, runtime_seconds,
rate_limiter_metrics}` from the *current* attribute values.  The two
`time.time()`-based runtimes (shard uptime, limiter runtime) are passed in
as arguments. -/

/-- `TwitchLimiter.get_metrics`: the cumulative counters plus the runtime
and the messages-per-minute rate. -/
structure FullLimiterMetrics where
  base : LimiterMetrics
  runtime_seconds : ℚ
  messages_per_minute : ℚ
deriving Repr, DecidableEq

def get_metrics (m : LimiterMetrics) (runtime : ℚ) : FullLimiterMetrics :=
  ⟨m, runtime, if 0 < runtime then (m.allowed_messages : ℚ) / runtime * 60 else 0⟩

/-- The metrics snapshot written to `shard_<id>_metrics.json`. -/
structure MetricsSnapshot where
  shard_id : String
  channels : List String
  message_count : ℕ
  runtime_seconds : ℚ
  rate_limiter_metrics : FullLimiterMetrics
deriving Repr, DecidableEq

/-- `IRCShard.part_channels`: no-op without a socket; otherwise send a
`PART` and a system event per channel and keep only the channels not
parted.  Returns (remaining channels, raw sends, events). -/
def part_channels (sock : Bool) (channels to_part : List String) :
    List String × List String × List (String × String × String) :=
  if sock = false then (channels, [], [])
  else
    (channels.filter (fun c => decide (c ∉ to_part)),
     to_part.map (fun c => "PART #" ++ c ++ "\r\n"),
     to_part.map (fun c => (c, "SYSTEM", "Bot parted #" ++ c)))

/-- `IRCShard.cleanup`: part all owned channels when a socket is open,
close the socket, and when a data directory is configured write the
snapshot from the post-parting attributes.  Returns (snapshot written,
raw sends, events). -/
def cleanup (sock : Bool) (channels : List String) (data_dir : Bool)
    (shard_id : String) (message_count : ℕ) (limMetrics : LimiterMetrics)
    (shard_runtime lim_runtime : ℚ) :
    Option MetricsSnapshot × List String × List (String × String × String) :=
  let parted :=
    if sock ∧ channels ≠ [] then part_channels sock channels channels
    else (channels, [], [])
  let snapshot :=
    if data_dir then
      some ⟨shard_id, parted.1, message_count, shard_runtime,
            get_metrics limMetrics lim_runtime⟩
    else none
  (snapshot, parted.2.1, parted.2.2)

/-- Any list parted against itself empties: `part_channels` leaves the
snapshot that `cleanup` writes with an empty `channels` field whenever a
socket was open and channels were owned. -/
theorem part_channels_self_empty (channels : List String) :
    (part_channels true channels channels).1 = [] := by
  rw [part_channels, if_neg (by simp)]
  simp

/-- C4, evaluated at the failing input: a session owning `["alice"]` with
an open socket and a data directory parts its channel and writes a
snapshot whose `message_count`, `runtime_seconds` and limiter metrics are
as specified — but whose `channels` field is `[]`, not the owned list
`["alice"]`, because `part_channels` cleared `self.channels` before the
snapshot was taken. -/
theorem cleanup_c4_bug :
    (cleanup true ["alice"] true "shard_0" 7 initLimiter.metrics 100 100).2.1
        = ["PART #alice\r\n"]
    ∧ (cleanup true ["alice"] true "shard_0" 7 initLimiter.metrics 100 100).1
        = some ⟨"shard_0", [], 7, 100, get_metrics initLimiter.metrics 100⟩
    ∧ ∀ m, (cleanup true ["alice"] true "shard_0" 7 initLimiter.metrics 100 100).1
          = some m → m.channels = [] ∧ m.channels ≠ ["alice"] := by
  refine ⟨rfl, rfl, ?_⟩
  intro m hm
  have : m = ⟨"shard_0", [], 7, 100, get_metrics initLimiter.metrics 100⟩ :=
    Option.some_injective _ (by rw [← hm]; exact rfl)
  subst this
  exact ⟨rfl, by simp⟩

end FameForecast
